import Mathlib

/-!
Verification of the transaction core of `ethereumjs-lib` (src/lib/transaction.js).

Buffers are modelled as lists of natural numbers (`Bytes`); a buffer is
well-formed when every entry is below 256.  The RLP codec, the big-integer
interpretation of buffers (`bignum.fromBuffer` / `utils.bufferToInt`), the
fee schedule and the signature engine are external collaborators or files
absent from the analysed sources; they are modelled from the specification
as noted on each definition.
-/

/-- A byte buffer: a list of naturals, well-formed when all entries are < 256. -/
abbrev Bytes := List Nat

/-- Big-endian unsigned interpretation of a buffer, as computed by
`bignum.fromBuffer` (fold over the bytes).  Modelled from the spec:
fields are "interpreted as unsigned big integers from their byte encodings". -/
def beVal (b : Bytes) : Nat :=
  b.foldl (fun acc d => acc * 256 + d) 0

/-- Positional (sum of digit times power) reading of a big-endian buffer;
the specification-side formulation of the unsigned integer value. -/
def beValSpec : Bytes → Nat
  | [] => 0
  | d :: rest => d * 256 ^ rest.length + beValSpec rest

/-- Minimal big-endian byte encoding of a natural number (empty for zero). -/
def beBytes : Nat → Bytes
  | 0 => []
  | n + 1 => beBytes ((n + 1) / 256) ++ [(n + 1) % 256]
decreasing_by exact Nat.div_lt_self (Nat.succ_pos n) (by omega)

theorem beVal_fold (b : Bytes) : ∀ a : Nat,
    b.foldl (fun acc d => acc * 256 + d) a = a * 256 ^ b.length + beValSpec b := by
  induction b with
  | nil => intro a; simp [beValSpec]
  | cons d rest ih =>
    intro a
    simp only [List.foldl_cons, ih, beValSpec, List.length_cons, pow_succ]
    ring

theorem beVal_eq_spec (b : Bytes) : beVal b = beValSpec b := by
  simpa using beVal_fold b 0

theorem beVal_append_single (xs : Bytes) (d : Nat) :
    beVal (xs ++ [d]) = beVal xs * 256 + d := by
  simp [beVal, List.foldl_append]

theorem beVal_beBytes : ∀ n, beVal (beBytes n) = n := by
  intro n
  induction n using Nat.strong_induction_on with
  | _ n ih =>
    match n with
    | 0 => simp [beBytes, beVal]
    | m + 1 =>
      rw [beBytes, beVal_append_single,
        ih ((m + 1) / 256) (Nat.div_lt_self (Nat.succ_pos m) (by omega))]
      omega

theorem beBytes_length_le : ∀ (k n : Nat), n < 256 ^ k → (beBytes n).length ≤ k := by
  intro k
  induction k with
  | zero => intro n h; interval_cases n; simp [beBytes]
  | succ k ih =>
    intro n h
    match n with
    | 0 => simp [beBytes]
    | m + 1 =>
      rw [beBytes]
      have hdiv : (m + 1) / 256 < 256 ^ k := by
        rw [Nat.div_lt_iff_lt_mul (by omega)]
        calc m + 1 < 256 ^ (k + 1) := h
          _ = 256 ^ k * 256 := by rw [pow_succ]
      simpa using Nat.succ_le_succ (ih _ hdiv)

theorem beBytes_length_pos (n : Nat) (h : 0 < n) : 0 < (beBytes n).length := by
  match n, h with
  | m + 1, _ => rw [beBytes]; simp

/-- An RLP item: either a byte string or a sequence of items.
Modelled from the spec: the Binary Canonical Codec encodes "nested sequences
of byte strings" (the `rlp` npm dependency is external to the sources). -/
inductive RItem where
  | str : Bytes → RItem
  | list : List RItem → RItem

/-- RLP length header: a single byte for payloads shorter than 56 bytes,
otherwise a length-of-length byte followed by the big-endian length. -/
def encodeLength (len offset : Nat) : Bytes :=
  if len < 56 then [offset + len]
  else (offset + 55 + (beBytes len).length) :: beBytes len

mutual

/-- RLP encoding of an item.  A single byte below 0x80 encodes as itself;
other strings get a 0x80-offset header, sequences a 0xc0-offset header. -/
def rlpEncode : RItem → Bytes
  | .str s =>
    if s.length = 1 ∧ s.headD 0 < 128 then s
    else encodeLength s.length 128 ++ s
  | .list items => encodeLength (rlpEncodeItems items).length 192 ++ rlpEncodeItems items

/-- Concatenated RLP encodings of a sequence of items. -/
def rlpEncodeItems : List RItem → Bytes
  | [] => []
  | it :: rest => rlpEncode it ++ rlpEncodeItems rest

end

mutual

/-- Fuel-indexed RLP parser for one item; returns the item and the
remaining bytes, or `none` on truncated or exhausted input. -/
def parseRItem : Nat → Bytes → Option (RItem × Bytes)
  | 0, _ => none
  | _ + 1, [] => none
  | fuel + 1, c :: rest =>
    if c < 128 then some (.str [c], rest)
    else if c ≤ 183 then
      let n := c - 128
      if rest.length < n then none
      else some (.str (rest.take n), rest.drop n)
    else if c ≤ 191 then
      let ll := c - 183
      if rest.length < ll then none
      else
        let n := beVal (rest.take ll)
        let r2 := rest.drop ll
        if r2.length < n then none
        else some (.str (r2.take n), r2.drop n)
    else if c ≤ 247 then
      let n := c - 192
      if rest.length < n then none
      else
        match parseRItems fuel (rest.take n) with
        | some items => some (.list items, rest.drop n)
        | none => none
    else
      let ll := c - 247
      if rest.length < ll then none
      else
        let n := beVal (rest.take ll)
        let r2 := rest.drop ll
        if r2.length < n then none
        else
          match parseRItems fuel (r2.take n) with
          | some items => some (.list items, r2.drop n)
          | none => none

/-- Fuel-indexed parser for a concatenated sequence of RLP items. -/
def parseRItems : Nat → Bytes → Option (List RItem)
  | 0, _ => none
  | _ + 1, [] => some []
  | fuel + 1, c :: rest =>
    match parseRItem fuel (c :: rest) with
    | some (item, rem) =>
      match parseRItems fuel rem with
      | some items => some (item :: items)
      | none => none
    | none => none

end

/-- RLP decoding of a byte string: parse one item and require that the
input is consumed entirely. -/
def rlpDecode (input : Bytes) : Option RItem :=
  match parseRItem (2 * input.length + 2) input with
  | some (item, []) => some item
  | _ => none

theorem encodeLength_cons (len offset : Nat) :
    ∃ c t, encodeLength len offset = c :: t := by
  rw [encodeLength]
  split
  · exact ⟨_, _, rfl⟩
  · exact ⟨_, _, rfl⟩

theorem rlpEncode_str_ne_nil (s : Bytes) : rlpEncode (.str s) ≠ [] := by
  rw [rlpEncode]
  split
  · rename_i h
    match s, h.1 with
    | [b], _ => simp
  · obtain ⟨c, t, h⟩ := encodeLength_cons s.length 128
    simp [h]

theorem parse_encode_str (fuel : Nat) (s rest : Bytes)
    (hlen : s.length < 2 ^ 64) :
    parseRItem (fuel + 1) (rlpEncode (.str s) ++ rest) = some (.str s, rest) := by
  rw [rlpEncode]
  by_cases hone : s.length = 1 ∧ s.headD 0 < 128
  · rw [if_pos hone]
    obtain ⟨h1, h2⟩ := hone
    match s, h1 with
    | [b], _ =>
      simp only [List.headD_cons] at h2
      simp [parseRItem, h2]
  · rw [if_neg hone, encodeLength]
    by_cases h56 : s.length < 56
    · rw [if_pos h56]
      have hc1 : ¬ (128 + s.length < 128) := by omega
      have hc2 : 128 + s.length ≤ 183 := by omega
      have hov : ¬ ((s ++ rest).length < 128 + s.length - 128) := by
        simp only [List.length_append]; omega
      simp only [List.cons_append, List.nil_append, parseRItem, if_neg hc1,
        if_pos hc2, if_neg hov]
      have hn : 128 + s.length - 128 = s.length := by omega
      rw [hn, List.take_left, List.drop_left]
    · rw [if_neg h56]
      have hlpos : 0 < s.length := by omega
      have hll1 : 0 < (beBytes s.length).length := beBytes_length_pos _ hlpos
      have hll8 : (beBytes s.length).length ≤ 8 := by
        apply beBytes_length_le
        calc s.length < 2 ^ 64 := hlen
          _ = 256 ^ 8 := by norm_num
      have hc1 : ¬ (128 + 55 + (beBytes s.length).length < 128) := by omega
      have hc2 : ¬ (128 + 55 + (beBytes s.length).length ≤ 183) := by omega
      have hc3 : 128 + 55 + (beBytes s.length).length ≤ 191 := by omega
      have hll : 128 + 55 + (beBytes s.length).length - 183 =
          (beBytes s.length).length := by omega
      have hov : ¬ ((beBytes s.length ++ (s ++ rest)).length <
          (beBytes s.length).length) := by
        simp only [List.length_append]; omega
      simp only [List.cons_append, List.append_assoc, parseRItem, if_neg hc1,
        if_neg hc2, if_pos hc3, hll, if_neg hov, List.take_left, List.drop_left,
        beVal_beBytes]
      have hov2 : ¬ ((s ++ rest).length < s.length) := by
        simp only [List.length_append]; omega
      rw [if_neg hov2]

theorem parse_encode_strs : ∀ (fields : List Bytes) (fuel : Nat),
    (∀ f ∈ fields, f.length < 2 ^ 64) →
    fields.length + 1 ≤ fuel →
    parseRItems fuel (rlpEncodeItems (fields.map RItem.str)) =
      some (fields.map RItem.str) := by
  intro fields
  induction fields with
  | nil =>
    intro fuel _ hfuel
    obtain ⟨g, rfl⟩ : ∃ g, fuel = g + 1 := ⟨fuel - 1, by omega⟩
    simp [rlpEncodeItems, parseRItems]
  | cons f fs ih =>
    intro fuel hb hfuel
    simp only [List.length_cons] at hfuel
    obtain ⟨g', rfl⟩ : ∃ g', fuel = g' + 1 + 1 := ⟨fuel - 2, by omega⟩
    simp only [List.map_cons, rlpEncodeItems]
    obtain ⟨c, t, hct⟩ : ∃ c t, rlpEncode (.str f) ++
        rlpEncodeItems (fs.map RItem.str) = c :: t := by
      match hcons : rlpEncode (.str f) with
      | [] => exact absurd hcons (rlpEncode_str_ne_nil f)
      | c :: t => exact ⟨c, _, rfl⟩
    rw [hct, parseRItems, ← hct, parse_encode_str g' f _ (hb f (by simp))]
    dsimp only
    rw [ih (g' + 1) (fun x hx => hb x (by simp [hx])) (by omega)]

theorem rlpEncode_length_pos (it : RItem) : 0 < (rlpEncode it).length := by
  match it with
  | .str s =>
    have := rlpEncode_str_ne_nil s
    cases h : rlpEncode (.str s) with
    | nil => exact absurd h this
    | cons c t => simp
  | .list items =>
    rw [rlpEncode]
    obtain ⟨c, t, h⟩ := encodeLength_cons (rlpEncodeItems items).length 192
    simp [h]

theorem rlpEncodeItems_length_ge : ∀ (items : List RItem),
    items.length ≤ (rlpEncodeItems items).length := by
  intro items
  induction items with
  | nil => simp [rlpEncodeItems]
  | cons it rest ih =>
    have := rlpEncode_length_pos it
    simp only [rlpEncodeItems, List.length_append, List.length_cons]
    omega

theorem parse_encode_str_list (fuel : Nat) (fields : List Bytes) (rest : Bytes)
    (hb : ∀ f ∈ fields, f.length < 2 ^ 64)
    (hp : (rlpEncodeItems (fields.map RItem.str)).length < 2 ^ 64)
    (hfuel : fields.length + 1 ≤ fuel) :
    parseRItem (fuel + 1) (rlpEncode (.list (fields.map RItem.str)) ++ rest) =
      some (.list (fields.map RItem.str), rest) := by
  rw [rlpEncode, encodeLength]
  by_cases h56 : (rlpEncodeItems (fields.map RItem.str)).length < 56
  · rw [if_pos h56]
    set p := rlpEncodeItems (fields.map RItem.str) with hp_def
    have hc1 : ¬ (192 + p.length < 128) := by omega
    have hc2 : ¬ (192 + p.length ≤ 183) := by omega
    have hc3 : ¬ (192 + p.length ≤ 191) := by omega
    have hc4 : 192 + p.length ≤ 247 := by omega
    have hn : 192 + p.length - 192 = p.length := by omega
    have hov : ¬ ((p ++ rest).length < p.length) := by
      simp only [List.length_append]; omega
    obtain ⟨g, rfl⟩ : ∃ g, fuel = g + 1 := ⟨fuel - 1, by omega⟩
    simp only [List.cons_append, List.nil_append, parseRItem, if_neg hc1,
      if_neg hc2, if_neg hc3, if_pos hc4, hn, if_neg hov, List.take_left,
      List.drop_left]
    rw [parse_encode_strs fields (g + 1) hb hfuel]
  · rw [if_neg h56]
    set p := rlpEncodeItems (fields.map RItem.str) with hp_def
    have hll1 : 0 < (beBytes p.length).length := beBytes_length_pos _ (by omega)
    have hll8 : (beBytes p.length).length ≤ 8 := by
      apply beBytes_length_le
      calc p.length < 2 ^ 64 := hp
        _ = 256 ^ 8 := by norm_num
    have hc1 : ¬ (192 + 55 + (beBytes p.length).length < 128) := by omega
    have hc2 : ¬ (192 + 55 + (beBytes p.length).length ≤ 183) := by omega
    have hc3 : ¬ (192 + 55 + (beBytes p.length).length ≤ 191) := by omega
    have hc4 : ¬ (192 + 55 + (beBytes p.length).length ≤ 247) := by omega
    have hll : 192 + 55 + (beBytes p.length).length - 247 =
        (beBytes p.length).length := by omega
    have hov : ¬ ((beBytes p.length ++ (p ++ rest)).length <
        (beBytes p.length).length) := by
      simp only [List.length_append]; omega
    obtain ⟨g, rfl⟩ : ∃ g, fuel = g + 1 := ⟨fuel - 1, by omega⟩
    simp only [List.cons_append, List.append_assoc, parseRItem, if_neg hc1,
      if_neg hc2, if_neg hc3, if_neg hc4, hll, if_neg hov, List.take_left,
      List.drop_left, beVal_beBytes]
    have hov2 : ¬ ((p ++ rest).length < p.length) := by
      simp only [List.length_append]; omega
    rw [if_neg hov2, parse_encode_strs fields (g + 1) hb hfuel]

theorem rlpDecode_encode_strs (fields : List Bytes)
    (hb : ∀ f ∈ fields, f.length < 2 ^ 64)
    (hp : (rlpEncodeItems (fields.map RItem.str)).length < 2 ^ 64) :
    rlpDecode (rlpEncode (.list (fields.map RItem.str))) =
      some (.list (fields.map RItem.str)) := by
  rw [rlpDecode]
  have hplen : fields.length ≤ (rlpEncodeItems (fields.map RItem.str)).length := by
    have := rlpEncodeItems_length_ge (fields.map RItem.str)
    simpa using this
  have hL : fields.length + 1 ≤ (rlpEncode (.list (fields.map RItem.str))).length := by
    rw [rlpEncode]
    obtain ⟨c, t, h⟩ := encodeLength_cons (rlpEncodeItems (fields.map RItem.str)).length 192
    rw [h]
    simp only [List.cons_append, List.length_cons, List.length_append]
    omega
  obtain ⟨g, hg⟩ : ∃ g, 2 * (rlpEncode (.list (fields.map RItem.str))).length + 2 =
      g + 1 := ⟨_, rfl⟩
  rw [hg]
  have hfuel : fields.length + 1 ≤ g := by omega
  have := parse_encode_str_list g fields [] hb hp hfuel
  rw [List.append_nil] at this
  rw [this]

/-- 32 zero bytes.  Modelled from the spec (`utils.zero256` is not among the
analysed sources): "r and s are fixed-width 256-bit big-endian integers
(zero-padded)". -/
def zero256 : Bytes := List.replicate 32 0

/-- The default 9-element field list set up by the `Transaction` constructor:
six single-zero-byte fields, `v = 0x1c`, and 32-zero-byte `r` and `s`. -/
def defaultRaw : List Bytes :=
  [[0], [0], [0], [0], [0], [0], [28], zero256, zero256]

/-- The derived transaction kind. -/
inductive TxType where
  | contract
  | message
deriving DecidableEq

/-- A parsed transaction: the stored field list and the derived `type`
attribute (kept as a stored attribute, as the source assigns it). -/
structure Transaction where
  raw : List Bytes
  type : TxType
deriving DecidableEq

/-- Unsigned integer reading of a buffer.  Modelled from the spec
(`utils.bufferToInt` is not among the analysed sources): a field's value is
its "canonical big-endian unsigned-integer byte representation". -/
def bufferToInt (b : Bytes) : Nat := beVal b

/-- The `type` computation of `parse` and of the `to` setter:
`message` when the `to` buffer reads as a nonzero integer, else `contract`. -/
def computeType (toField : Bytes) : TxType :=
  if bufferToInt toField ≠ 0 then .message else .contract

/-- Element-wise overwrite of a list by another, extending when the second
is longer: the `data.forEach` loop writing `raw[i] = data[i]`. -/
def overwrite {α : Type} : List α → List α → List α
  | ds, [] => ds
  | [], x :: xs => x :: overwrite [] xs
  | _ :: ds, x :: xs => x :: overwrite ds xs

/-- Structural field validation run by `parse`.  Modelled from the spec
(`utils.validate` is not among the analysed sources): "to ∈ \x7b0,20\x7d bytes;
r,s ≤ 32 bytes; others unconstrained", with the single zero byte admitted
as the sentinel for an empty `to` ("an all-zero single-byte field is the
sentinel for empty/zero across numeric fields"). -/
def validateFields (raw : List Bytes) : Bool :=
  ((raw.getD 3 []).length == 0 || (raw.getD 3 []).length == 20 ||
    raw.getD 3 [] == [0]) &&
  decide ((raw.getD 7 []).length ≤ 32) && decide ((raw.getD 8 []).length ≤ 32)

/-- The intermediate `this.raw` array of `parse` just before the field-count
check: the defaults overwritten element-wise by `data`, except that a
6-element `data` replaces the whole array by `data` padded with three nulls. -/
def parseRawSteps (data : List Bytes) : List (Option Bytes) :=
  if data.length = 6 then data.map some ++ [none, none, none]
  else overwrite (defaultRaw.map some) (data.map some)

/-- `Transaction.prototype.parse`: the field-count check reads `data.length`
(the argument, not the padded `this.raw`), then fields are validated and the
derived `type` is computed from `data[3]`. -/
def Transaction.parse (data : List Bytes) : Except String Transaction :=
  if data.length ≠ 9 then
    Except.error "invalid number of fields in transaction data"
  else if validateFields ((parseRawSteps data).map (fun ob => ob.getD [])) then
    Except.ok
      { raw := (parseRawSteps data).map (fun ob => ob.getD [])
        type := computeType (data.getD 3 []) }
  else
    Except.error "invalid transaction field"

/-- Constructor argument: nothing, raw encoded bytes, or a field list. -/
def construct : Option (Sum Bytes (List Bytes)) → Except String Transaction
  | none => Transaction.parse defaultRaw
  | some (Sum.inr fields) => Transaction.parse fields
  | some (Sum.inl bytes) =>
    match rlpDecode bytes with
    | some (RItem.list items) =>
      match asStrings items with
      | some fields => Transaction.parse fields
      | none => Except.error "malformed encoding"
    | _ => Except.error "malformed encoding"
where
  /-- Flatten a decoded sequence when every element is a byte string. -/
  asStrings : List RItem → Option (List Bytes)
    | [] => some []
    | RItem.str s :: rest => (asStrings rest).map (s :: ·)
    | RItem.list _ :: _ => none

def Transaction.nonce (tx : Transaction) : Bytes := tx.raw.getD 0 []

def Transaction.gasPrice (tx : Transaction) : Bytes := tx.raw.getD 1 []

def Transaction.gasLimit (tx : Transaction) : Bytes := tx.raw.getD 2 []

def Transaction.to (tx : Transaction) : Bytes := tx.raw.getD 3 []

def Transaction.value (tx : Transaction) : Bytes := tx.raw.getD 4 []

def Transaction.data (tx : Transaction) : Bytes := tx.raw.getD 5 []

def Transaction.v (tx : Transaction) : Bytes := tx.raw.getD 6 []

def Transaction.r (tx : Transaction) : Bytes := tx.raw.getD 7 []

def Transaction.s (tx : Transaction) : Bytes := tx.raw.getD 8 []

/-- The `to` setter: requires a 20-byte buffer, stores it at index 3 and
recomputes the derived `type` from the stored buffer. -/
def Transaction.setTo (tx : Transaction) (val : Bytes) : Except String Transaction :=
  if val.length ≠ 20 then
    Except.error "The field to must have byte length of 20"
  else
    Except.ok
      { raw := tx.raw.set 3 val
        type := computeType ((tx.raw.set 3 val).getD 3 []) }

/-- `Transaction.prototype.serialize`: the RLP encoding of the field list. -/
def Transaction.serialize (tx : Transaction) : Bytes :=
  rlpEncode (RItem.list (tx.raw.map RItem.str))

/-- `Transaction.prototype.hash`, parameterised by the external SHA3-256
digest: an omitted argument defaults to `true`; with the signature the whole
field list is encoded and digested, without it `raw.slice(0, -3)`. -/
def Transaction.hash (digest : Bytes → Bytes) (tx : Transaction)
    (signature : Option Bool) : Bytes :=
  let sig := signature.getD true
  let toHash := if sig then tx.raw else tx.raw.take (tx.raw.length - 3)
  digest (rlpEncode (RItem.list (toHash.map RItem.str)))

/-- `Transaction.prototype.getSenderPublicKey`, parameterised by the digest
and by the external `ecdsa.recoverPubKey` (arguments: message-hash integer,
`r`, `s`, recovery index `v - 27`); the source's try/catch that turns a
recovery exception into an absent key is the `Option` result. -/
def Transaction.getSenderPublicKey (digest : Bytes → Bytes)
    (recoverPubKey : Nat → Nat → Nat → Int → Option Bytes)
    (tx : Transaction) : Option Bytes :=
  recoverPubKey (beVal (tx.hash digest (some false))) (beVal tx.r) (beVal tx.s)
    ((bufferToInt tx.v : Int) - 27)

/-- Address derivation from a public key.  Modelled from the spec
(`utils.pubToAddress` is not among the analysed sources):
"Hash.digest(getSenderPublicKey()) tail 20 bytes". -/
def pubToAddress (digest : Bytes → Bytes) (pubKey : Bytes) : Bytes :=
  (digest pubKey).drop ((digest pubKey).length - 20)

/-- `Transaction.prototype.getSenderAddress`.  Modelled from the spec for the
recovery-failure case: "or null if public key recovery failed". -/
def Transaction.getSenderAddress (digest : Bytes → Bytes)
    (recoverPubKey : Nat → Nat → Nat → Int → Option Bytes)
    (tx : Transaction) : Option Bytes :=
  (tx.getSenderPublicKey digest recoverPubKey).map (pubToAddress digest)

/-- The fee schedule.  Modelled from the spec (`fees.js` is not among the
analysed sources): named constants `TXDATA` and `TRANSACTION`. -/
structure FeeSchedule where
  txdata : Nat
  transactionFee : Nat
deriving DecidableEq

/-- `Transaction.prototype.getDataFee`: zero for a single zero data byte,
otherwise data length times the TXDATA fee. -/
def Transaction.getDataFee (fees : FeeSchedule) (tx : Transaction) : Nat :=
  if (tx.raw.getD 5 []).length = 1 ∧ (tx.raw.getD 5 []).getD 0 0 = 0 then 0
  else (tx.raw.getD 5 []).length * fees.txdata

/-- `Transaction.prototype.getBaseFee`: data fee plus the TRANSACTION fee. -/
def Transaction.getBaseFee (fees : FeeSchedule) (tx : Transaction) : Nat :=
  tx.getDataFee fees + fees.transactionFee

/-- `Transaction.prototype.getUpfrontCost`:
`gasLimit * gasPrice + value` over big-integer buffer readings. -/
def Transaction.getUpfrontCost (tx : Transaction) : Nat :=
  beVal tx.gasLimit * beVal tx.gasPrice + beVal tx.value

/-- `Transaction.prototype.validate`, parameterised by the external
`ecdsaOps.verifySignature` (not among the analysed sources): signature
verification conjoined with `getBaseFee() <= bufferToInt(gasLimit)`. -/
def Transaction.validate (verifySig : Transaction → Bool) (fees : FeeSchedule)
    (tx : Transaction) : Bool :=
  verifySig tx && decide (tx.getBaseFee fees ≤ bufferToInt tx.gasLimit)

/-- The transaction produced by the no-argument constructor. -/
def defaultTx : Transaction :=
  { raw := defaultRaw, type := TxType.contract }

theorem overwrite_of_length_le {α : Type} :
    ∀ (xs ds : List α), ds.length ≤ xs.length → overwrite ds xs = xs := by
  intro xs
  induction xs with
  | nil =>
    intro ds h
    match ds, h with
    | [], _ => rfl
  | cons x xs ih =>
    intro ds h
    match ds with
    | [] => simp only [overwrite]; rw [ih [] (by simp)]
    | d :: ds =>
      simp only [List.length_cons] at h
      simp only [overwrite]
      rw [ih ds (by omega)]

theorem parseRaw_of_length_nine (data : List Bytes) (h : data.length = 9) :
    (parseRawSteps data).map (fun ob => ob.getD []) = data := by
  rw [parseRawSteps, if_neg (by omega)]
  rw [overwrite_of_length_le]
  · simp [Function.comp_def]
  · simp [defaultRaw, h]

theorem parse_of_length_nine (data : List Bytes) (h : data.length = 9) :
    Transaction.parse data =
      if validateFields data then
        Except.ok { raw := data, type := computeType (data.getD 3 []) }
      else Except.error "invalid transaction field" := by
  rw [Transaction.parse, if_neg (by omega), parseRaw_of_length_nine data h]

theorem parse_ok_inv (data : List Bytes) (tx : Transaction)
    (h : Transaction.parse data = Except.ok tx) :
    data.length = 9 ∧ tx.raw = data ∧ tx.type = computeType (data.getD 3 []) ∧
      validateFields data = true := by
  have h9 : data.length = 9 := by
    by_contra h9
    rw [Transaction.parse, if_pos h9] at h
    exact Except.noConfusion h
  rw [parse_of_length_nine data h9] at h
  by_cases hv : validateFields data
  · rw [if_pos hv] at h
    cases h
    exact ⟨h9, rfl, rfl, hv⟩
  · rw [if_neg hv] at h
    exact Except.noConfusion h

theorem asStrings_map_str : ∀ (fields : List Bytes),
    construct.asStrings (fields.map RItem.str) = some fields := by
  intro fields
  induction fields with
  | nil => rfl
  | cons f fs ih => simp [construct.asStrings, ih]

theorem take_six_eq_fields (tx : Transaction) (h : tx.raw.length = 9) :
    tx.raw.take 6 =
      [tx.nonce, tx.gasPrice, tx.gasLimit, tx.to, tx.value, tx.data] := by
  rcases tx with ⟨raw, ty⟩
  simp only [Transaction.nonce, Transaction.gasPrice, Transaction.gasLimit,
    Transaction.to, Transaction.value, Transaction.data] at *
  rcases raw with _ | ⟨a0, _ | ⟨a1, _ | ⟨a2, _ | ⟨a3, _ | ⟨a4, _ | ⟨a5, _ |
    ⟨a6, _ | ⟨a7, _ | ⟨a8, tail⟩⟩⟩⟩⟩⟩⟩⟩⟩ <;> simp_all

theorem computeType_contract_iff (b : Bytes) :
    computeType b = TxType.contract ↔ bufferToInt b = 0 := by
  rw [computeType]
  by_cases h : bufferToInt b ≠ 0
  · rw [if_pos h]; simp [h]
  · rw [if_neg h]; simp at h; simp [h]

theorem construct_ok_parse (inp : Option (Sum Bytes (List Bytes)))
    (tx : Transaction) (h : construct inp = Except.ok tx) :
    ∃ data, Transaction.parse data = Except.ok tx := by
  match inp with
  | none => exact ⟨defaultRaw, h⟩
  | some (Sum.inr fields) => exact ⟨fields, h⟩
  | some (Sum.inl bytes) =>
    rw [construct] at h
    match hd : rlpDecode bytes with
    | none => rw [hd] at h; exact Except.noConfusion h
    | some (RItem.str _) => rw [hd] at h; exact Except.noConfusion h
    | some (RItem.list items) =>
      rw [hd] at h
      dsimp only at h
      match ha : construct.asStrings items with
      | none => rw [ha] at h; exact Except.noConfusion h
      | some fields =>
        rw [ha] at h
        exact ⟨fields, h⟩

theorem construct_type (inp : Option (Sum Bytes (List Bytes)))
    (tx : Transaction) (h : construct inp = Except.ok tx) :
    tx.type = computeType tx.to := by
  obtain ⟨data, hp⟩ := construct_ok_parse inp tx h
  obtain ⟨h9, hraw, hty, _⟩ := parse_ok_inv data tx hp
  rw [hty, Transaction.to, hraw]

theorem setTo_type (tx : Transaction) (val : Bytes) (tx' : Transaction)
    (h : tx.setTo val = Except.ok tx') : tx'.type = computeType tx'.to := by
  rw [Transaction.setTo] at h
  by_cases hl : val.length ≠ 20
  · rw [if_pos hl] at h; exact Except.noConfusion h
  · rw [if_neg hl] at h
    cases h
    rfl

theorem single_zero_iff (l : Bytes) :
    (l.length = 1 ∧ l.getD 0 0 = 0) ↔ l = [0] := by
  match l with
  | [] => simp
  | [d] => simp [List.getD]
  | d :: e :: t => simp

/-- C1: the claim says a 6-element field list is accepted and auto-padded, but
the source checks `data.length !== 9` after replacing `this.raw` (the argument
`data` still has length 6), so a 6-field list is rejected with the
invalid-field-count error.  This theorem evaluates the constructor at the
failing input. -/
theorem claim_C1_six_field_list_rejected :
    construct (some (Sum.inr [[0], [0], [0], [0], [0], [0]])) =
      Except.error "invalid number of fields in transaction data" := rfl

/-- C2 (counterexample): the no-argument constructor yields a transaction
whose `to` field is the single zero byte (length 1, not zero-length) and whose
derived type is nevertheless `contract`, refuting "type equals contract
exactly when `to` is zero-length". -/
theorem claim_C2_counterexample :
    construct none = Except.ok defaultTx ∧
    defaultTx.to.length = 1 ∧ defaultTx.type = TxType.contract :=
  ⟨rfl, rfl, rfl⟩

/-- C2 (amended): for every constructed transaction, the derived type is
`contract` exactly when the `to` field reads as the integer zero (which holds
for an empty `to` but also for any all-zero `to`), else `message`; and the
same relation is re-established whenever `to` is mutated through the setter. -/
theorem claim_C2_type_zero_valued (inp : Option (Sum Bytes (List Bytes)))
    (tx : Transaction) (h : construct inp = Except.ok tx) :
    (tx.type = TxType.contract ↔ bufferToInt tx.to = 0) ∧
    ∀ (val : Bytes) (tx' : Transaction), tx.setTo val = Except.ok tx' →
      (tx'.type = TxType.contract ↔ bufferToInt tx'.to = 0) := by
  constructor
  · rw [construct_type inp tx h]
    exact computeType_contract_iff tx.to
  · intro val tx' h'
    rw [setTo_type tx val tx' h']
    exact computeType_contract_iff tx'.to

/-- C2 witness: the amended claim instantiated at the no-argument
constructor's transaction. -/
theorem claim_C2_witness :
    construct none = Except.ok defaultTx ∧
    ((defaultTx.type = TxType.contract ↔ bufferToInt defaultTx.to = 0) ∧
    ∀ (val : Bytes) (tx' : Transaction), defaultTx.setTo val = Except.ok tx' →
      (tx'.type = TxType.contract ↔ bufferToInt tx'.to = 0)) :=
  ⟨rfl, claim_C2_type_zero_valued none defaultTx rfl⟩

/-- C3: `hash` digests the RLP encoding of all 9 fields when the signature
flag is omitted or true, and the RLP encoding of only the first 6 fields
(nonce, gasPrice, gasLimit, to, value, data) when it is false. -/
theorem claim_C3_hash_field_coverage (digest : Bytes → Bytes)
    (tx : Transaction) (h : tx.raw.length = 9) :
    tx.hash digest none =
      digest (rlpEncode (RItem.list (tx.raw.map RItem.str))) ∧
    tx.hash digest (some true) =
      digest (rlpEncode (RItem.list (tx.raw.map RItem.str))) ∧
    tx.hash digest (some false) =
      digest (rlpEncode (RItem.list
        ([tx.nonce, tx.gasPrice, tx.gasLimit, tx.to, tx.value,
          tx.data].map RItem.str))) := by
  refine ⟨rfl, rfl, ?_⟩
  rw [Transaction.hash]
  have h6 : tx.raw.length - 3 = 6 := by omega
  dsimp only [Option.getD]
  rw [if_neg (by simp), h6, take_six_eq_fields tx h]

/-- C3 witness: the coverage theorem instantiated at the default transaction
and the identity digest. -/
theorem claim_C3_witness :
    defaultTx.raw.length = 9 ∧
    (defaultTx.hash (fun b => b) none =
      (fun b => b) (rlpEncode (RItem.list (defaultTx.raw.map RItem.str))) ∧
    defaultTx.hash (fun b => b) (some true) =
      (fun b => b) (rlpEncode (RItem.list (defaultTx.raw.map RItem.str))) ∧
    defaultTx.hash (fun b => b) (some false) =
      (fun b => b) (rlpEncode (RItem.list
        ([defaultTx.nonce, defaultTx.gasPrice, defaultTx.gasLimit,
          defaultTx.to, defaultTx.value, defaultTx.data].map RItem.str)))) :=
  ⟨by decide, claim_C3_hash_field_coverage (fun b => b) defaultTx (by decide)⟩

/-- C4: when the signature components do not yield a recoverable public key
(the external recovery returns nothing), `getSenderPublicKey` and
`getSenderAddress` both return an absent result instead of raising. -/
theorem claim_C4_recovery_failure_null (digest : Bytes → Bytes)
    (recoverPubKey : Nat → Nat → Nat → Int → Option Bytes) (tx : Transaction)
    (h : recoverPubKey (beVal (tx.hash digest (some false))) (beVal tx.r)
      (beVal tx.s) ((bufferToInt tx.v : Int) - 27) = none) :
    tx.getSenderPublicKey digest recoverPubKey = none ∧
    tx.getSenderAddress digest recoverPubKey = none := by
  have h1 : tx.getSenderPublicKey digest recoverPubKey = none := h
  refine ⟨h1, ?_⟩
  rw [Transaction.getSenderAddress, h1]
  rfl

/-- C4 witness: the recovery-failure theorem at the default transaction and
an always-failing recovery. -/
theorem claim_C4_witness :
    (fun (_ : Nat) (_ : Nat) (_ : Nat) (_ : Int) => (none : Option Bytes))
      (beVal (defaultTx.hash (fun _ => []) (some false))) (beVal defaultTx.r)
      (beVal defaultTx.s) ((bufferToInt defaultTx.v : Int) - 27) = none ∧
    (defaultTx.getSenderPublicKey (fun _ => [])
      (fun _ _ _ _ => none) = none ∧
    defaultTx.getSenderAddress (fun _ => [])
      (fun _ _ _ _ => none) = none) :=
  ⟨rfl, claim_C4_recovery_failure_null (fun _ => []) (fun _ _ _ _ => none)
    defaultTx rfl⟩

/-- C5: `validate` is true exactly when the signature verifies and the base
fee is at most the integer value (not the byte length) of `gasLimit`; in
particular it is false whenever that value is below the base fee. -/
theorem claim_C5_validate_spec (verifySig : Transaction → Bool)
    (fees : FeeSchedule) (tx : Transaction) :
    (tx.validate verifySig fees = true ↔
      (verifySig tx = true ∧ tx.getBaseFee fees ≤ bufferToInt tx.gasLimit)) ∧
    (bufferToInt tx.gasLimit < tx.getBaseFee fees →
      tx.validate verifySig fees = false) := by
  constructor
  · rw [Transaction.validate]
    simp [Bool.and_eq_true]
  · intro hlt
    have hn : ¬ (tx.getBaseFee fees ≤ bufferToInt tx.gasLimit) := by omega
    rw [Transaction.validate]
    simp [hn]

/-- C5 witness: the default transaction has gasLimit value 0, below the base
fee of a schedule with TRANSACTION fee 500, so validation fails even with an
always-true signature check. -/
theorem claim_C5_witness :
    bufferToInt defaultTx.gasLimit <
      Transaction.getBaseFee ⟨5, 500⟩ defaultTx ∧
    Transaction.validate (fun _ => true) ⟨5, 500⟩ defaultTx = false :=
  ⟨by decide,
    (claim_C5_validate_spec (fun _ => true) ⟨5, 500⟩ defaultTx).2 (by decide)⟩

/-- C6: serializing a well-formed 9-field transaction and constructing a new
transaction from the resulting bytes succeeds and reproduces the 9 stored
fields exactly. -/
theorem claim_C6_serialize_construct_roundtrip (tx : Transaction)
    (hlen : tx.raw.length = 9)
    (hb : ∀ f ∈ tx.raw, f.length < 2 ^ 64)
    (hp : (rlpEncodeItems (tx.raw.map RItem.str)).length < 2 ^ 64)
    (hv : validateFields tx.raw = true) :
    ∃ tx' : Transaction,
      construct (some (Sum.inl tx.serialize)) = Except.ok tx' ∧
      tx'.raw = tx.raw := by
  refine ⟨{ raw := tx.raw, type := computeType (tx.raw.getD 3 []) }, ?_, rfl⟩
  rw [construct, Transaction.serialize, rlpDecode_encode_strs tx.raw hb hp]
  dsimp only
  rw [asStrings_map_str]
  dsimp only
  rw [parse_of_length_nine tx.raw hlen, if_pos hv]

/-- C6 witness: the round trip instantiated at the default transaction. -/
theorem claim_C6_witness :
    validateFields defaultTx.raw = true ∧
    ∃ tx' : Transaction,
      construct (some (Sum.inl defaultTx.serialize)) = Except.ok tx' ∧
      tx'.raw = defaultTx.raw :=
  ⟨by decide, claim_C6_serialize_construct_roundtrip defaultTx (by decide)
    (by decide) (by decide) (by decide)⟩

/-- C7: `getDataFee` is zero when the data field is the single zero byte
(the empty/zero sentinel), and otherwise the data length times the TXDATA
fee. -/
theorem claim_C7_data_fee (fees : FeeSchedule) (tx : Transaction) :
    (tx.data = [0] → tx.getDataFee fees = 0) ∧
    (tx.data ≠ [0] → tx.getDataFee fees = tx.data.length * fees.txdata) := by
  constructor
  · intro hz
    rw [Transaction.data] at hz
    rw [Transaction.getDataFee, if_pos ((single_zero_iff _).2 hz)]
  · intro hnz
    rw [Transaction.data] at hnz
    simp only [Transaction.getDataFee, Transaction.data]
    rw [if_neg (fun hc => hnz ((single_zero_iff _).1 hc))]

/-- C7 witness: the fee computation at the default transaction (zero
sentinel data, fee 0) through the theorem. -/
theorem claim_C7_witness :
    defaultTx.data = [0] ∧ Transaction.getDataFee ⟨5, 500⟩ defaultTx = 0 :=
  ⟨rfl, (claim_C7_data_fee ⟨5, 500⟩ defaultTx).1 rfl⟩

/-- C8: the unsigned hash (`hash(false)`) of a 9-field transaction depends
only on the first six fields, so it is unchanged by any modification of
`v`, `r` or `s`. -/
theorem claim_C8_unsigned_hash_frame (digest : Bytes → Bytes)
    (tx1 tx2 : Transaction) (h1 : tx1.raw.length = 9)
    (h2 : tx2.raw.length = 9) (h6 : tx1.raw.take 6 = tx2.raw.take 6) :
    tx1.hash digest (some false) = tx2.hash digest (some false) := by
  rw [Transaction.hash, Transaction.hash]
  have e1 : tx1.raw.length - 3 = 6 := by omega
  have e2 : tx2.raw.length - 3 = 6 := by omega
  dsimp only [Option.getD]
  rw [if_neg (by simp), if_neg (by simp), e1, e2, h6]

/-- C8 witness: the default transaction and a copy with different `v`, `r`,
`s` have the same unsigned hash. -/
theorem claim_C8_witness :
    defaultTx.raw.length = 9 ∧
    (Transaction.mk [[0], [0], [0], [0], [0], [0], [27], [1], [2]]
      TxType.contract).raw.length = 9 ∧
    defaultTx.raw.take 6 =
      (Transaction.mk [[0], [0], [0], [0], [0], [0], [27], [1], [2]]
        TxType.contract).raw.take 6 ∧
    defaultTx.hash (fun b => b) (some false) =
      (Transaction.mk [[0], [0], [0], [0], [0], [0], [27], [1], [2]]
        TxType.contract).hash (fun b => b) (some false) :=
  ⟨by decide, by decide, by decide,
    claim_C8_unsigned_hash_frame (fun b => b) defaultTx
      (Transaction.mk [[0], [0], [0], [0], [0], [0], [27], [1], [2]]
        TxType.contract) (by decide) (by decide) (by decide)⟩

/-- C9: `getUpfrontCost` equals `gasLimit * gasPrice + value` with each field
read as an unsigned big-endian positional integer, in exact unbounded
arithmetic, for buffers of any length. -/
theorem claim_C9_upfront_cost (tx : Transaction) :
    tx.getUpfrontCost =
      beValSpec tx.gasLimit * beValSpec tx.gasPrice + beValSpec tx.value := by
  rw [Transaction.getUpfrontCost, beVal_eq_spec, beVal_eq_spec, beVal_eq_spec]

/-- C10: the no-argument constructor succeeds without any decode step and
yields single-zero-byte nonce, gasPrice, gasLimit, to, value and data fields,
`v = 0x1c`, 32-zero-byte `r` and `s`, and derived type `contract`. -/
theorem claim_C10_default_transaction :
    construct none = Except.ok defaultTx ∧
    defaultTx.nonce = [0] ∧ defaultTx.gasPrice = [0] ∧
    defaultTx.gasLimit = [0] ∧ defaultTx.to = [0] ∧ defaultTx.value = [0] ∧
    defaultTx.data = [0] ∧ defaultTx.v = [28] ∧
    defaultTx.r = List.replicate 32 0 ∧ defaultTx.s = List.replicate 32 0 ∧
    defaultTx.type = TxType.contract :=
  ⟨rfl, rfl, rfl, rfl, rfl, rfl, rfl, rfl, rfl, rfl, rfl⟩
